import Mathlib

/-!
Verification of the ddreplayer entity-attribute store and edit/commit
workflow (src/main.rs).  The Rust program keeps a fixed label schema, one
dynamic column per label mapping entities to values of that label's kind,
an edit session holding staged text buffers, and a commit pipeline that
either despawns the entity (empty staged list) or clears the entity's whole
row and re-inserts every staged field, parsed per its kind.
-/

namespace DDReplayer

/-- Kind of data a label holds: 16-bit signed integer, owned text, or a
zero-size presence marker (src/main.rs `LabelDataKind`). -/
inductive LabelDataKind
  | Number
  | Text
  | Unit
deriving DecidableEq

/-- A column key: display name plus data kind (src/main.rs `Label`).  Two
labels are equal iff both name and kind match. -/
structure Label where
  name : String
  data : LabelDataKind
deriving DecidableEq

/-- Entities are opaque identifiers issued by the world; modelled as
naturals. -/
abbrev Entity := Nat

/-- A value stored in a column.  The source stores raw fixed-size bytes in a
`DynamicTable` and reinterprets them by the owning label's kind; we model
the store at the level of the values those bytes encode. -/
inductive Value
  | number (n : Int)
  | text (s : String)
  | unit
deriving DecidableEq

/-- Reinterpretation of a stored value as an `i16`, modelling the unsafe
pointer cast done under the caller-enforced kind contract (a mismatched
kind would be undefined behaviour in the source; we return 0 there, a case
never reached in the claims below). -/
def Value.asNumber : Value → Int
  | .number n => n
  | _ => 0

/-- Reinterpretation of a stored value as a `String`, modelling the unsafe
pointer cast done under the caller-enforced kind contract. -/
def Value.asText : Value → String
  | .text s => s
  | _ => ""

/-- Modelled from the spec: the `decentralecs` `World` plus the per-label
`DynamicTable` columns of `ReplayDB` (src/main.rs `ReplayDB`).  The crate's
code is not part of this repository; per spec §4.1-§4.2 each column is a
sparse map from entity to value and the world tracks live entities in
insertion order. -/
structure ReplayDB where
  labels : List Label
  columns : Label → Entity → Option Value
  live : List Entity

/-- Modelled from the spec: `DynamicTable::get_component` — read-only lookup,
`none` when the attribute is absent. -/
def ReplayDB.getComponent (db : ReplayDB) (l : Label) (e : Entity) : Option Value :=
  db.columns l e

/-- Modelled from the spec: `DynamicTable::insert_component` — overwrites any
prior entry for that entity in that label's column. -/
def ReplayDB.insertComponent (db : ReplayDB) (l : Label) (e : Entity) (v : Value) : ReplayDB :=
  { db with columns := fun l' e' => if l' = l ∧ e' = e then some v else db.columns l' e' }

/-- Modelled from the spec: `DynamicTable::remove_component` — deletes the
entry if present, no-op otherwise. -/
def ReplayDB.removeComponent (db : ReplayDB) (l : Label) (e : Entity) : ReplayDB :=
  { db with columns := fun l' e' => if l' = l ∧ e' = e then none else db.columns l' e' }

/-- Modelled from the spec: `World::despawn` — the entity stops satisfying
every column lookup and disappears from the live-entity sequence that the
viewer enumerates for its rows. -/
def ReplayDB.despawn (db : ReplayDB) (e : Entity) : ReplayDB :=
  { db with
    columns := fun l' e' => if e' = e then none else db.columns l' e'
    live := db.live.filter (fun e' => e' ≠ e) }

/-- Base-10 digit test, as in Rust's integer parser. -/
def isAsciiDigit (c : Char) : Bool :=
  '0' ≤ c && c ≤ '9'

/-- Value of a digit string (most significant first). -/
def digitsToNat (cs : List Char) : Nat :=
  cs.foldl (fun acc c => acc * 10 + (c.toNat - 48)) 0

/-- Model of Rust's `str::parse::<i16>`: an optional sign followed by one or
more ASCII digits, rejecting anything else and any value outside
-32768..=32767. -/
def parseI16 (s : String) : Option Int :=
  let cs := s.toList
  let signDigits :=
    match cs with
    | '+' :: rest => (false, rest)
    | '-' :: rest => (true, rest)
    | _ => (false, cs)
  let neg := signDigits.1
  let digits := signDigits.2
  if digits.isEmpty then none
  else if digits.all isAsciiDigit then
    let n := digitsToNat digits
    if neg then
      if n ≤ 32768 then some (-(n : Int)) else none
    else
      if n ≤ 32767 then some (n : Int) else none
  else none

/-- A staged field of an edit session: a label plus its pending text buffer
(src/main.rs `LabelInput`; the `tui_input::Input` cursor is omitted, no
claim concerns it). -/
structure LabelInput where
  label : Label
  data : String
deriving DecidableEq

/-- The value a staged field commits to its column: `Number` text is parsed
as an `i16` (failure modelled as `none`), `Text` is taken literally, `Unit`
needs no text (src/main.rs `App::run`, SaveChanges branch, `typed_data`
match). -/
def LabelInput.parsedValue (li : LabelInput) : Option Value :=
  match li.label.data with
  | .Number => (parseI16 li.data).map .number
  | .Text => some (.text li.data)
  | .Unit => some .unit

/-- Clear phase of the commit: for every label in the full schema, remove
that label's column entry for the entity (src/main.rs `App::run`,
SaveChanges branch, first loop). -/
def clearAll (db : ReplayDB) (e : Entity) : ReplayDB :=
  db.labels.foldl (fun d l => d.removeComponent l e) db

/-- Insert phase of the commit: for each staged field in order, parse its
text per its label's kind and insert the value into that label's column
(src/main.rs `App::run`, SaveChanges branch, second loop).  A `Number`
field whose text fails to parse hits `.unwrap()` and aborts the process;
`.error d` models that abort, carrying the store state at the abort
point. -/
def insertPhase (db : ReplayDB) (e : Entity) : List LabelInput → Except ReplayDB ReplayDB
  | [] => .ok db
  | li :: rest =>
    match li.label.data with
    | .Number =>
      match parseI16 li.data with
      | none => .error db
      | some n => insertPhase (db.insertComponent li.label e (.number n)) e rest
    | .Text => insertPhase (db.insertComponent li.label e (.text li.data)) e rest
    | .Unit => insertPhase (db.insertComponent li.label e .unit) e rest

/-- The commit pipeline triggered by Enter on SaveChanges (src/main.rs
`App::run`): despawn on an empty staged list, otherwise clear the entity's
whole row and then run the insert phase.  `.ok` is a completed commit,
`.error` a process abort. -/
def saveChanges (db : ReplayDB) (e : Entity) (staged : List LabelInput) :
    Except ReplayDB ReplayDB :=
  if staged.isEmpty then .ok (db.despawn e)
  else insertPhase (clearAll db e) e staged

/-- Focus position of the edit session (src/main.rs `ReplayInfoEditorFocus`).
`LabelData`/`LabelRemove` index the staged list, `AddableLabel` indexes the
addable-label menu. -/
inductive ReplayInfoEditorFocus
  | LabelData (n : Nat)
  | LabelRemove (n : Nat)
  | LabelAdd
  | AddableLabel (n : Nat)
  | SaveChanges
deriving DecidableEq

/-- Forward focus navigation (src/main.rs `ReplayInfoEditorFocus::next_focus`).
When leaving `LabelRemove n` for a deletion the index is not incremented,
since the field at `n` is about to be removed. -/
def ReplayInfoEditorFocus.next_focus (self : ReplayInfoEditorFocus) (max_labels : Nat)
    (max_addable_labels : Nat) (for_deletion : Bool) : ReplayInfoEditorFocus :=
  match self with
  | .LabelData n => .LabelRemove n
  | .LabelRemove n =>
    if max_labels = n + 1 then .LabelAdd
    else if for_deletion then .LabelData n
    else .LabelData (n + 1)
  | .AddableLabel n =>
    let new_idx := n + 1
    if max_addable_labels = new_idx then .AddableLabel 0 else .AddableLabel new_idx
  | .LabelAdd => .SaveChanges
  | .SaveChanges => .SaveChanges

/-- Backward focus navigation (src/main.rs
`ReplayInfoEditorFocus::prev_focus`).  The `AddableLabel 0` case computes
`max_addable_labels - 1`, which in the source is a `usize` subtraction; Nat
subtraction stands in for it, and the reachability invariant below shows the
count is positive whenever this case runs. -/
def ReplayInfoEditorFocus.prev_focus (self : ReplayInfoEditorFocus) (max_labels : Nat)
    (max_addable_labels : Nat) : ReplayInfoEditorFocus :=
  match self with
  | .LabelRemove n => .LabelData n
  | .LabelData n => if n = 0 then .LabelData n else .LabelRemove (n - 1)
  | .AddableLabel n =>
    .AddableLabel (if n = 0 then max_addable_labels - 1 else n - 1)
  | .LabelAdd => if max_labels ≥ 1 then .LabelRemove (max_labels - 1) else .LabelAdd
  | .SaveChanges => .LabelAdd

/-- Schema labels not already staged, in schema order (src/main.rs
`App::addable_labels`). -/
def addable_labels (schema : List Label) (existing_labels : List LabelInput) : List Label :=
  schema.filter fun l => !(existing_labels.any fun li => li.label == l)

/-- Count of addable labels (src/main.rs `App::number_addable_labels`). -/
def number_addable_labels (schema : List Label) (existing_labels : List LabelInput) : Nat :=
  (addable_labels schema existing_labels).length

/-- An open edit session (src/main.rs `ReplayInfoEditor`): the edited entity,
the focus, and the staged fields. -/
structure ReplayInfoEditor where
  entity : Entity
  focus : ReplayInfoEditorFocus
  labels : List LabelInput
deriving DecidableEq

/-- Seed the staged list from the entity's current row: one staged field per
schema label whose column has an entry for the entity, in schema order, its
text rendered per the label's kind (src/main.rs `ReplayInfoEditor::new`,
the `flat_map`). -/
def seedLabels (db : ReplayDB) (entity : Entity) (ls : List Label) : List LabelInput :=
  ls.filterMap fun label =>
    (db.getComponent label entity).map fun v =>
      { label := label
        data :=
          match label.data with
          | .Number => toString v.asNumber
          | .Text => v.asText
          | .Unit => "" }

/-- Create an edit session for an entity (src/main.rs
`ReplayInfoEditor::new`): staged list seeded from the row, initial focus
`LabelData 0` when it is non-empty, else `LabelAdd`. -/
def ReplayInfoEditor.new (db : ReplayDB) (entity : Entity) : ReplayInfoEditor :=
  let labels := seedLabels db entity db.labels
  { entity
    focus := if labels.length > 0 then .LabelData 0 else .LabelAdd
    labels }

/-- A key event handled by the editor branch of `App::run`.  `Tab` behaves
like `Down`; `Char c` stands for any raw text-editing event, modelled as
appending a character to the focused buffer (the precise `tui_input`
buffer-editing semantics are irrelevant to every claim: only that the event
touches the `n`-th buffer and preserves its label). -/
inductive EditorKey
  | Esc
  | Up
  | Down
  | Tab
  | Enter
  | Char (c : Char)
deriving DecidableEq

/-- One key event of the editor loop (src/main.rs `App::run`,
`AppState::ReplayInfoEditor` arm).  `none` means the session ends: Esc
outside the addable menu abandons it, Enter on SaveChanges commits and
closes it (the commit itself is `saveChanges`), and an out-of-range staged
or addable index hits a panicking indexing in the source. -/
def editorStep (schema : List Label) (st : ReplayInfoEditor) (k : EditorKey) :
    Option ReplayInfoEditor :=
  match k with
  | .Esc =>
    match st.focus with
    | .AddableLabel _ => some { st with focus := .LabelAdd }
    | _ => none
  | .Up =>
    some { st with
      focus := st.focus.prev_focus st.labels.length (number_addable_labels schema st.labels) }
  | .Down | .Tab =>
    some { st with
      focus :=
        st.focus.next_focus st.labels.length (number_addable_labels schema st.labels) false }
  | .Enter =>
    match st.focus with
    | .LabelData _ =>
      some { st with
        focus :=
          st.focus.next_focus st.labels.length (number_addable_labels schema st.labels) false }
    | .LabelRemove n =>
      some { st with
        focus :=
          st.focus.next_focus st.labels.length (number_addable_labels schema st.labels) true
        labels := st.labels.eraseIdx n }
    | .AddableLabel n =>
      match (addable_labels schema st.labels)[n]? with
      | some label =>
        some { st with
          labels := st.labels ++ [{ label := label, data := "" }]
          focus := .LabelData st.labels.length }
      | none => none
    | .LabelAdd =>
      if number_addable_labels schema st.labels > 0 then
        some { st with focus := .AddableLabel 0 }
      else some st
    | .SaveChanges => none
  | .Char c =>
    match st.focus with
    | .LabelData n =>
      match st.labels[n]? with
      | some li =>
        some { st with labels := st.labels.set n { li with data := li.data.push c } }
      | none => none
    | _ => some st

/-- Run a list of key events from a session state; `none` as soon as the
session ends. -/
def stepsFrom (schema : List Label) (st : ReplayInfoEditor) :
    List EditorKey → Option ReplayInfoEditor
  | [] => some st
  | k :: ks =>
    match editorStep schema st k with
    | some st' => stepsFrom schema st' ks
    | none => none

/-- Iterate forward navigation (`next_focus` with `for_deletion = false`)
a given number of steps with fixed staged-list length `k` and addable count
`a`. -/
def iterNextFocus (k a : Nat) : Nat → ReplayInfoEditorFocus → ReplayInfoEditorFocus
  | 0, f => f
  | n + 1, f => iterNextFocus k a n (f.next_focus k a false)

/-- Index-safety invariant of a session state: staged-list indices in
`LabelData`/`LabelRemove` focus are in bounds, and an `AddableLabel` index
is below the current addable count (hence the count is positive). -/
def focusInv (schema : List Label) (st : ReplayInfoEditor) : Bool :=
  match st.focus with
  | .LabelData n => n < st.labels.length
  | .LabelRemove n => n < st.labels.length
  | .AddableLabel n => n < number_addable_labels schema st.labels
  | .LabelAdd => true
  | .SaveChanges => true

/-- Text of the first staged field carrying a given label. -/
def stagedLookup (staged : List LabelInput) (l : Label) : Option String :=
  (staged.find? fun li => li.label == l).map (fun li => li.data)

/-- The label of the concrete schema holding the replay name (src/main.rs
`ReplayDB::new`). -/
def nameLabel : Label := { name := "Name", data := .Text }

/-- The label of the concrete schema holding the 800m split (src/main.rs
`ReplayDB::new`). -/
def splitLabel : Label := { name := "800 Split", data := .Number }

/-- The label of the concrete schema holding the personal-best marker
(src/main.rs `ReplayDB::new`). -/
def pbLabel : Label := { name := "PB", data := .Unit }

/-- The fixed startup schema of the program (src/main.rs `ReplayDB::new`). -/
def demoSchema : List Label := [nameLabel, splitLabel, pbLabel]

/-- A store with the program's schema and no attributes set. -/
def emptyDB : ReplayDB :=
  { labels := demoSchema, columns := fun _ _ => none, live := [0, 1] }

/-- A store whose entity 0 has a Name and a PB attribute. -/
def oldRowDB : ReplayDB :=
  (emptyDB.insertComponent nameLabel 0 (.text "Old")).insertComponent pbLabel 0 .unit

/-- A staged list holding a Name and an 800 Split field. -/
def stagedAB : List LabelInput :=
  [{ label := nameLabel, data := "Foo" }, { label := splitLabel, data := "120" }]

/-- The store after committing `stagedAB` for entity 0 of `oldRowDB`. -/
def committedAB : ReplayDB :=
  match saveChanges oldRowDB 0 stagedAB with
  | .ok d => d
  | .error d => d

/-- Three staged fields, one per schema label, used for focus examples. -/
def stagedABC : List LabelInput :=
  [{ label := nameLabel, data := "a" }, { label := splitLabel, data := "1" },
   { label := pbLabel, data := "" }]

@[simp]
theorem getComponent_insert (db : ReplayDB) (l' : Label) (e' : Entity) (v : Value)
    (l : Label) (e : Entity) :
    (db.insertComponent l' e' v).getComponent l e =
      if l = l' ∧ e = e' then some v else db.getComponent l e := rfl

@[simp]
theorem getComponent_remove (db : ReplayDB) (l' : Label) (e' : Entity)
    (l : Label) (e : Entity) :
    (db.removeComponent l' e').getComponent l e =
      if l = l' ∧ e = e' then none else db.getComponent l e := rfl

@[simp]
theorem getComponent_despawn (db : ReplayDB) (e' : Entity) (l : Label) (e : Entity) :
    (db.despawn e').getComponent l e = if e = e' then none else db.getComponent l e := rfl

theorem labels_insert (db : ReplayDB) (l : Label) (e : Entity) (v : Value) :
    (db.insertComponent l e v).labels = db.labels := rfl

theorem labels_remove (db : ReplayDB) (l : Label) (e : Entity) :
    (db.removeComponent l e).labels = db.labels := rfl

theorem foldl_remove_get (e : Entity) (ls : List Label) (db : ReplayDB)
    (l : Label) (e' : Entity) :
    (ls.foldl (fun d lb => d.removeComponent lb e) db).getComponent l e' =
      if l ∈ ls ∧ e' = e then none else db.getComponent l e' := by
  induction ls generalizing db with
  | nil => simp
  | cons a as ih =>
    rw [List.foldl_cons, ih]
    simp only [getComponent_remove, List.mem_cons]
    split_ifs <;> first | rfl | tauto

theorem clearAll_get (db : ReplayDB) (e : Entity) (l : Label) (e' : Entity) :
    (clearAll db e).getComponent l e' =
      if l ∈ db.labels ∧ e' = e then none else db.getComponent l e' :=
  foldl_remove_get e db.labels db l e'

theorem foldl_remove_labels (e : Entity) (ls : List Label) (db : ReplayDB) :
    (ls.foldl (fun d lb => d.removeComponent lb e) db).labels = db.labels := by
  induction ls generalizing db with
  | nil => rfl
  | cons a as ih => rw [List.foldl_cons, ih]; rfl

theorem clearAll_labels (db : ReplayDB) (e : Entity) : (clearAll db e).labels = db.labels :=
  foldl_remove_labels e db.labels db

/-- C2: confirming SaveChanges with an empty staged list performs exactly one
despawn of the entity (no column insert or removal), after which the entity
is absent from the live rows the viewer lists and satisfies no column
lookup. -/
theorem C2_empty_staged_despawns (db : ReplayDB) (e : Entity) :
    saveChanges db e [] = .ok (db.despawn e) ∧
    e ∉ (db.despawn e).live ∧
    ∀ l : Label, (db.despawn e).getComponent l e = none := by
  refine ⟨rfl, ?_, ?_⟩
  · simp [ReplayDB.despawn]
  · intro l; simp

theorem iterNextFocus_add (k a m n : Nat) (f : ReplayInfoEditorFocus) :
    iterNextFocus k a (m + n) f = iterNextFocus k a m (iterNextFocus k a n f) := by
  induction n generalizing f with
  | zero => rfl
  | succ n ih =>
    show iterNextFocus k a (m + n) (f.next_focus k a false) = _
    rw [ih]
    rfl

theorem iterNextFocus_save (k a m : Nat) :
    iterNextFocus k a m .SaveChanges = .SaveChanges := by
  induction m with
  | zero => rfl
  | succ m ih => exact ih

theorem iterNextFocus_reach (k a : Nat) (i : Nat) (hi : i < k) :
    iterNextFocus k a (2 * i) (.LabelData 0) = .LabelData i := by
  induction i with
  | zero => rfl
  | succ i ih =>
    have hik : i < k := Nat.lt_of_succ_lt hi
    have h2 : 2 * (i + 1) = 2 + 2 * i := by ring
    rw [h2, iterNextFocus_add, ih hik]
    have hk : ¬(k = i + 1) := by omega
    show iterNextFocus k a 1 ((ReplayInfoEditorFocus.LabelData i).next_focus k a false) = _
    show iterNextFocus k a 0
      (((ReplayInfoEditorFocus.LabelData i).next_focus k a false).next_focus k a false) = _
    simp only [iterNextFocus, ReplayInfoEditorFocus.next_focus]
    rw [if_neg hk]
    rfl

theorem iterNextFocus_reach_add (k a : Nat) (hk : 1 ≤ k) :
    iterNextFocus k a (2 * k) (.LabelData 0) = .LabelAdd := by
  have h1 : 2 * k = 2 + 2 * (k - 1) := by omega
  have h2 : k - 1 < k := by omega
  rw [h1, iterNextFocus_add, iterNextFocus_reach k a (k - 1) h2]
  have hk1 : k = (k - 1) + 1 := by omega
  show iterNextFocus k a 0
    (((ReplayInfoEditorFocus.LabelData (k - 1)).next_focus k a false).next_focus k a false) = _
  simp only [iterNextFocus, ReplayInfoEditorFocus.next_focus]
  rw [if_pos hk1]

/-- C4: forward navigation from SaveChanges always stays at SaveChanges, and
from `LabelData 0` with `k ≥ 1` staged fields and no deletions the iterated
forward navigation visits `LabelData i` at step `2i` and `LabelRemove i` at
step `2i+1` for every `i < k`, reaches `LabelAdd` at step `2k`, and reaches
`SaveChanges` exactly at step `2k+1`. -/
theorem C4_focus_cycle (k a : Nat) (hk : 1 ≤ k) :
    (∀ m, iterNextFocus k a m .SaveChanges = .SaveChanges) ∧
    (∀ i, i < k →
      iterNextFocus k a (2 * i) (.LabelData 0) = .LabelData i ∧
      iterNextFocus k a (2 * i + 1) (.LabelData 0) = .LabelRemove i) ∧
    iterNextFocus k a (2 * k) (.LabelData 0) = .LabelAdd ∧
    iterNextFocus k a (2 * k + 1) (.LabelData 0) = .SaveChanges := by
  refine ⟨fun m => iterNextFocus_save k a m, ?_, iterNextFocus_reach_add k a hk, ?_⟩
  · intro i hi
    refine ⟨iterNextFocus_reach k a i hi, ?_⟩
    have h1 : 2 * i + 1 = 1 + 2 * i := by omega
    rw [h1, iterNextFocus_add, iterNextFocus_reach k a i hi]
    rfl
  · have h1 : 2 * k + 1 = 1 + 2 * k := by omega
    rw [h1, iterNextFocus_add, iterNextFocus_reach_add k a hk]
    rfl

/-- Witness for C4 at `k = 2`, `a = 1`: the five-step walk field 0,
remove 0, field 1, remove 1, add-menu, save, and stability at save. -/
theorem C4_focus_cycle_witness :
    iterNextFocus 2 1 5 .SaveChanges = .SaveChanges ∧
    iterNextFocus 2 1 (2 * 1) (.LabelData 0) = .LabelData 1 ∧
    iterNextFocus 2 1 (2 * 1 + 1) (.LabelData 0) = .LabelRemove 1 ∧
    iterNextFocus 2 1 (2 * 2) (.LabelData 0) = .LabelAdd ∧
    iterNextFocus 2 1 (2 * 2 + 1) (.LabelData 0) = .SaveChanges :=
  ⟨(C4_focus_cycle 2 1 (by decide)).1 5,
   ((C4_focus_cycle 2 1 (by decide)).2.1 1 (by decide)).1,
   ((C4_focus_cycle 2 1 (by decide)).2.1 1 (by decide)).2,
   (C4_focus_cycle 2 1 (by decide)).2.2.1,
   (C4_focus_cycle 2 1 (by decide)).2.2.2⟩

/-- C5: confirming at `LabelRemove i` removes the i-th staged field; focus
becomes `LabelData i` when `i` was not the last staged index and `LabelAdd`
when it was (the new focus is computed from the pre-removal length, then the
field is removed, so `LabelData i` now refers to the field that previously
had index `i + 1`). -/
theorem C5_confirm_remove (schema : List Label) (st : ReplayInfoEditor) (i : Nat)
    (hfoc : st.focus = .LabelRemove i) (hi : i < st.labels.length) :
    editorStep schema st .Enter =
      some { st with
        focus := if st.labels.length = i + 1 then .LabelAdd else .LabelData i
        labels := st.labels.eraseIdx i } := by
  rcases st with ⟨ent, foc, staged⟩
  cases hfoc
  simp only [editorStep, ReplayInfoEditorFocus.next_focus]
  split <;> rfl

/-- Witness for C5: staged `[Name, 800 Split, PB]` with focus
`LabelRemove 1`; confirming yields staged `[Name, PB]` with focus
`LabelData 1`. -/
theorem C5_confirm_remove_witness :
    editorStep demoSchema { entity := 0, focus := .LabelRemove 1, labels := stagedABC } .Enter =
      some { entity := 0, focus := .LabelData 1,
             labels := [{ label := nameLabel, data := "a" },
                        { label := pbLabel, data := "" }] } := by
  have h := C5_confirm_remove demoSchema
    { entity := 0, focus := .LabelRemove 1, labels := stagedABC } 1 rfl (by decide)
  rw [h]
  rfl

theorem seedLabels_eq_nil (db : ReplayDB) (e : Entity) (ls : List Label)
    (h : ∀ l ∈ ls, db.getComponent l e = none) : seedLabels db e ls = [] := by
  induction ls with
  | nil => rfl
  | cons a as ih =>
    have ha : db.getComponent a e = none := h a (List.mem_cons_self a as)
    show List.filterMap _ (a :: as) = []
    rw [List.filterMap_cons]
    simp only [ha, Option.map_none]
    exact ih fun l hl => h l (List.mem_cons_of_mem a hl)

/-- C7: at session creation the initial focus is `LabelData 0` when the
seeded staged list is non-empty and `LabelAdd` when it is empty; in
particular an entity with no column entries (such as a freshly spawned one)
opens with an empty staged list and focus `LabelAdd`. -/
theorem C7_initial_focus (db : ReplayDB) (e : Entity) :
    ((ReplayInfoEditor.new db e).focus =
      if (ReplayInfoEditor.new db e).labels.isEmpty then .LabelAdd else .LabelData 0) ∧
    ((∀ l ∈ db.labels, db.getComponent l e = none) →
      (ReplayInfoEditor.new db e).labels = [] ∧
      (ReplayInfoEditor.new db e).focus = .LabelAdd) := by
  constructor
  · show (if (seedLabels db e db.labels).length > 0 then _ else _) = _
    rcases hs : seedLabels db e db.labels with _ | ⟨a, as⟩ <;>
      simp [ReplayInfoEditor.new, hs]
  · intro h
    have hs : seedLabels db e db.labels = [] := seedLabels_eq_nil db e db.labels h
    constructor
    · show seedLabels db e db.labels = []
      exact hs
    · show (if (seedLabels db e db.labels).length > 0 then _ else _) = _
      rw [hs]
      rfl

/-- Witness for C7: an entity with no attributes opens with an empty staged
list and focus on the add menu. -/
theorem C7_initial_focus_witness :
    (ReplayInfoEditor.new emptyDB 0).labels = [] ∧
    (ReplayInfoEditor.new emptyDB 0).focus = .LabelAdd :=
  (C7_initial_focus emptyDB 0).2 (fun _ _ => rfl)

theorem insertPhase_error_of_bad (e : Entity) (staged : List LabelInput)
    (hbad : ∃ li ∈ staged, li.label.data = .Number ∧ parseI16 li.data = none) :
    ∀ db : ReplayDB, ∃ d, insertPhase db e staged = .error d := by
  induction staged with
  | nil => simp at hbad
  | cons li rest ih =>
    intro db
    rcases hbad with ⟨x, hx, hkind, hparse⟩
    rcases List.mem_cons.mp hx with rfl | hxr
    · exact ⟨db, by simp only [insertPhase, hkind, hparse]⟩
    · cases hl : li.label.data with
      | Number =>
        cases hp : parseI16 li.data with
        | none => exact ⟨db, by simp only [insertPhase, hl, hp]⟩
        | some n =>
          obtain ⟨d, hd⟩ := ih ⟨x, hxr, hkind, hparse⟩
            (db.insertComponent li.label e (.number n))
          exact ⟨d, by simp only [insertPhase, hl, hp]; exact hd⟩
      | Text =>
        obtain ⟨d, hd⟩ := ih ⟨x, hxr, hkind, hparse⟩
          (db.insertComponent li.label e (.text li.data))
        exact ⟨d, by simp only [insertPhase, hl]; exact hd⟩
      | Unit =>
        obtain ⟨d, hd⟩ := ih ⟨x, hxr, hkind, hparse⟩
          (db.insertComponent li.label e .unit)
        exact ⟨d, by simp only [insertPhase, hl]; exact hd⟩

/-- C6: during a commit with a non-empty staged list, any staged Number field
whose text does not parse as a base-10 signed 16-bit integer makes the
commit hit `.unwrap()` and abort the whole process (modelled as the
`.error` outcome of `saveChanges`, which is neither a returned error value
nor a kept-open session in the source). -/
theorem C6_number_parse_fatal (db : ReplayDB) (e : Entity) (staged : List LabelInput)
    (hne : staged ≠ [])
    (hbad : ∃ li ∈ staged, li.label.data = .Number ∧ parseI16 li.data = none) :
    ∃ d, saveChanges db e staged = .error d := by
  obtain ⟨d, hd⟩ := insertPhase_error_of_bad e staged hbad (clearAll db e)
  refine ⟨d, ?_⟩
  unfold saveChanges
  rcases staged with _ | ⟨a, as⟩
  · exact absurd rfl hne
  · simpa using hd

/-- Witness for C6: staging a non-numeric 800 Split aborts the commit. -/
theorem C6_number_parse_fatal_witness :
    ∃ d, saveChanges oldRowDB 0 [{ label := splitLabel, data := "12x" }] = .error d :=
  C6_number_parse_fatal oldRowDB 0 [{ label := splitLabel, data := "12x" }]
    (by decide)
    ⟨{ label := splitLabel, data := "12x" }, by decide, by decide, by decide⟩

theorem insertPhase_error_split (e : Entity) (staged : List LabelInput) :
    ∀ db d : ReplayDB, insertPhase db e staged = .error d →
      ∃ pre li post, staged = pre ++ li :: post ∧ li.label.data = .Number ∧
        parseI16 li.data = none ∧ insertPhase db e pre = .ok d := by
  induction staged with
  | nil => intro db d h; simp [insertPhase] at h
  | cons li rest ih =>
    intro db d h
    cases hl : li.label.data with
    | Number =>
      cases hp : parseI16 li.data with
      | none =>
        simp only [insertPhase, hl, hp, Except.error.injEq] at h
        exact ⟨[], li, rest, rfl, hl, hp, by rw [h]; rfl⟩
      | some n =>
        simp only [insertPhase, hl, hp] at h
        obtain ⟨pre, li', post, hsplit, hkind, hparse, hok⟩ := ih _ _ h
        exact ⟨li :: pre, li', post, by rw [hsplit]; rfl, hkind, hparse,
          by simp only [insertPhase, hl, hp]; exact hok⟩
    | Text =>
      simp only [insertPhase, hl] at h
      obtain ⟨pre, li', post, hsplit, hkind, hparse, hok⟩ := ih _ _ h
      exact ⟨li :: pre, li', post, by rw [hsplit]; rfl, hkind, hparse,
        by simp only [insertPhase, hl]; exact hok⟩
    | Unit =>
      simp only [insertPhase, hl] at h
      obtain ⟨pre, li', post, hsplit, hkind, hparse, hok⟩ := ih _ _ h
      exact ⟨li :: pre, li', post, by rw [hsplit]; rfl, hkind, hparse,
        by simp only [insertPhase, hl]; exact hok⟩

/-- C10: in a commit with a non-empty staged list the clear phase removes the
entity's entry from every schema column before any staged text is parsed;
hence when the commit aborts, the abort-point store `d` is the fully
cleared store with exactly the staged fields before the first failing
Number field already inserted — the store has already been mutated. -/
theorem C10_abort_after_mutation (db : ReplayDB) (e : Entity) (staged : List LabelInput)
    (d : ReplayDB) (hne : staged ≠ [])
    (herr : saveChanges db e staged = .error d) :
    (∀ l ∈ db.labels, (clearAll db e).getComponent l e = none) ∧
    ∃ pre li post, staged = pre ++ li :: post ∧ li.label.data = .Number ∧
      parseI16 li.data = none ∧ insertPhase (clearAll db e) e pre = .ok d := by
  constructor
  · intro l hl
    rw [clearAll_get]
    simp [hl]
  · have herr' : insertPhase (clearAll db e) e staged = .error d := by
      unfold saveChanges at herr
      rcases staged with _ | ⟨a, as⟩
      · exact absurd rfl hne
      · simpa using herr
    exact insertPhase_error_split e staged (clearAll db e) d herr'

/-- Witness for C10: committing a good Name followed by a bad 800 Split
aborts with the old row cleared and the Name already inserted. -/
theorem C10_abort_after_mutation_witness :
    (∀ l ∈ oldRowDB.labels, (clearAll oldRowDB 0).getComponent l 0 = none) ∧
    ∃ pre li post,
      [({ label := nameLabel, data := "Foo" } : LabelInput),
       { label := splitLabel, data := "bad" }] = pre ++ li :: post ∧
      li.label.data = .Number ∧ parseI16 li.data = none ∧
      insertPhase (clearAll oldRowDB 0) 0 pre = .ok
        (match saveChanges oldRowDB 0
          [({ label := nameLabel, data := "Foo" } : LabelInput),
           { label := splitLabel, data := "bad" }] with
         | .ok d => d
         | .error d => d) :=
  C10_abort_after_mutation oldRowDB 0
    [{ label := nameLabel, data := "Foo" }, { label := splitLabel, data := "bad" }]
    _ (by decide) rfl

theorem find?_label_eq_none (rest : List LabelInput) (l : Label)
    (h : l ∉ rest.map (fun li => li.label)) :
    rest.find? (fun li => li.label == l) = none := by
  rw [List.find?_eq_none]
  intro li hli
  simp only [beq_iff_eq]
  intro heq
  exact h (heq ▸ List.mem_map_of_mem (fun li => li.label) hli)

theorem insertPhase_ok_get (e : Entity) (staged : List LabelInput) :
    ∀ db db' : ReplayDB,
      (staged.map (fun li => li.label)).Nodup →
      insertPhase db e staged = .ok db' →
      ∀ l : Label,
        db'.getComponent l e =
          match staged.find? (fun li => li.label == l) with
          | some li => li.parsedValue
          | none => db.getComponent l e := by
  induction staged with
  | nil =>
    intro db db' _ h l
    simp only [insertPhase, Except.ok.injEq] at h
    rw [← h]
    rfl
  | cons li rest ih =>
    intro db db' hnodup h l
    have hnodup' : (rest.map (fun li => li.label)).Nodup :=
      (List.nodup_cons.mp hnodup).2
    have hnotin : li.label ∉ rest.map (fun x => x.label) :=
      (List.nodup_cons.mp hnodup).1
    by_cases hll : li.label = l
    · subst hll
      have hfind : (li :: rest).find? (fun x => x.label == li.label) = some li := by
        rw [List.find?_cons_of_pos]
        simp
      rw [hfind]
      have hrest : rest.find? (fun x => x.label == li.label) = none :=
        find?_label_eq_none rest li.label hnotin
      cases hl : li.label.data with
      | Number =>
        cases hp : parseI16 li.data with
        | none =>
          simp only [insertPhase, hl, hp] at h
          exact Except.noConfusion h
        | some n =>
          simp only [insertPhase, hl, hp] at h
          have := ih _ _ hnodup' h li.label
          rw [this, hrest]
          simp [LabelInput.parsedValue, hl, hp]
      | Text =>
        simp only [insertPhase, hl] at h
        have := ih _ _ hnodup' h li.label
        rw [this, hrest]
        simp [LabelInput.parsedValue, hl]
      | Unit =>
        simp only [insertPhase, hl] at h
        have := ih _ _ hnodup' h li.label
        rw [this, hrest]
        simp [LabelInput.parsedValue, hl]
    · have hfind : (li :: rest).find? (fun x => x.label == l) =
          rest.find? (fun x => x.label == l) := by
        rw [List.find?_cons_of_neg]
        simp [hll]
      rw [hfind]
      cases hl : li.label.data with
      | Number =>
        cases hp : parseI16 li.data with
        | none =>
          simp only [insertPhase, hl, hp] at h
          exact Except.noConfusion h
        | some n =>
          simp only [insertPhase, hl, hp] at h
          have := ih _ _ hnodup' h l
          rw [this]
          cases hrest : rest.find? (fun x => x.label == l) with
          | some li' => rfl
          | none => simp [Ne.symm hll]
      | Text =>
        simp only [insertPhase, hl] at h
        have := ih _ _ hnodup' h l
        rw [this]
        cases hrest : rest.find? (fun x => x.label == l) with
        | some li' => rfl
        | none => simp [Ne.symm hll]
      | Unit =>
        simp only [insertPhase, hl] at h
        have := ih _ _ hnodup' h l
        rw [this]
        cases hrest : rest.find? (fun x => x.label == l) with
        | some li' => rfl
        | none => simp [Ne.symm hll]

theorem insertPhase_ok_parses (e : Entity) (staged : List LabelInput) :
    ∀ db db' : ReplayDB, insertPhase db e staged = .ok db' →
      ∀ li ∈ staged, ∃ v, li.parsedValue = some v := by
  induction staged with
  | nil => intro db db' _ li hli; simp at hli
  | cons li rest ih =>
    intro db db' h x hx
    rcases List.mem_cons.mp hx with rfl | hxr
    · cases hl : x.label.data with
      | Number =>
        cases hp : parseI16 x.data with
        | none =>
          simp only [insertPhase, hl, hp] at h
          exact Except.noConfusion h
        | some n => exact ⟨.number n, by simp [LabelInput.parsedValue, hl, hp]⟩
      | Text => exact ⟨.text x.data, by simp [LabelInput.parsedValue, hl]⟩
      | Unit => exact ⟨.unit, by simp [LabelInput.parsedValue, hl]⟩
    · cases hl : li.label.data with
      | Number =>
        cases hp : parseI16 li.data with
        | none =>
          simp only [insertPhase, hl, hp] at h
          exact Except.noConfusion h
        | some n =>
          simp only [insertPhase, hl, hp] at h
          exact ih _ _ h x hxr
      | Text =>
        simp only [insertPhase, hl] at h
        exact ih _ _ h x hxr
      | Unit =>
        simp only [insertPhase, hl] at h
        exact ih _ _ h x hxr

/-- C1: committing a non-empty staged list (with each label staged at most
once, which every reachable session guarantees) first clears the entity's
entry in every schema column and then inserts every staged field parsed per
its kind, so the resulting row carries exactly the staged labels: for every
schema label its column entry is the staged field's parsed value, and `none`
for labels not staged — including labels only present in the old row; every
staged field has a parsed value. -/
theorem C1_commit_replace_all (db : ReplayDB) (e : Entity) (staged : List LabelInput)
    (db' : ReplayDB) (hne : staged ≠ [])
    (hnodup : (staged.map (fun li => li.label)).Nodup)
    (hok : saveChanges db e staged = .ok db') :
    (∀ l ∈ db.labels,
      db'.getComponent l e =
        match staged.find? (fun li => li.label == l) with
        | some li => li.parsedValue
        | none => none) ∧
    ∀ li ∈ staged, ∃ v, li.parsedValue = some v := by
  have hok' : insertPhase (clearAll db e) e staged = .ok db' := by
    unfold saveChanges at hok
    rcases staged with _ | ⟨a, as⟩
    · exact absurd rfl hne
    · simpa using hok
  constructor
  · intro l hl
    rw [insertPhase_ok_get e staged (clearAll db e) db' hnodup hok' l]
    cases hfind : staged.find? (fun li => li.label == l) with
    | some li => rfl
    | none =>
      rw [clearAll_get]
      simp [hl]
  · exact insertPhase_ok_parses e staged (clearAll db e) db' hok'

/-- Witness for C1: entity 0 previously had `Name` and `PB`; committing
staged `Name`/`800 Split` yields a row with exactly those two labels — `PB`
is gone. -/
theorem C1_commit_replace_all_witness :
    committedAB.getComponent nameLabel 0 = some (.text "Foo") ∧
    committedAB.getComponent splitLabel 0 = some (.number 120) ∧
    committedAB.getComponent pbLabel 0 = none := by
  have h := (C1_commit_replace_all oldRowDB 0 stagedAB committedAB
    (by decide) (by decide) rfl).1
  refine ⟨?_, ?_, ?_⟩
  · rw [h nameLabel (by decide)]; rfl
  · rw [h splitLabel (by decide)]; rfl
  · rw [h pbLabel (by decide)]
    decide

theorem seedLabels_find_none (db : ReplayDB) (e : Entity) (l : Label)
    (hnone : db.getComponent l e = none) :
    ∀ ls : List Label, (seedLabels db e ls).find? (fun li => li.label == l) = none := by
  intro ls
  induction ls with
  | nil => rfl
  | cons a as ih =>
    cases hga : db.getComponent a e with
    | none =>
      simp only [seedLabels, List.filterMap_cons, hga, Option.map_none]
      exact ih
    | some v =>
      have hal : a ≠ l := by
        intro heq
        rw [heq, hnone] at hga
        exact Option.noConfusion hga
      simp only [seedLabels, List.filterMap_cons, hga, Option.map_some']
      rw [List.find?_cons_of_neg]
      · exact ih
      · simp [hal]

theorem seedLabels_find (db : ReplayDB) (e : Entity) (l : Label) :
    ∀ ls : List Label, l ∈ ls →
      (seedLabels db e ls).find? (fun li => li.label == l) =
        (db.getComponent l e).map (fun v =>
          { label := l
            data := match l.data with
              | .Number => toString v.asNumber
              | .Text => v.asText
              | .Unit => "" }) := by
  intro ls
  induction ls with
  | nil => intro h; simp at h
  | cons a as ih =>
    intro hl
    by_cases hal : a = l
    · subst hal
      cases hga : db.getComponent a e with
      | none =>
        simp only [seedLabels, List.filterMap_cons, hga, Option.map_none]
        exact seedLabels_find_none db e a hga as
      | some v =>
        simp only [seedLabels, List.filterMap_cons, hga, Option.map_some']
        rw [List.find?_cons_of_pos _ (by simp)]
    · have hmem : l ∈ as := (List.mem_cons.mp hl).resolve_left (fun h => hal h.symm)
      cases hga : db.getComponent a e with
      | none =>
        simp only [seedLabels, List.filterMap_cons, hga, Option.map_none]
        exact ih hmem
      | some v =>
        simp only [seedLabels, List.filterMap_cons, hga, Option.map_some']
        rw [List.find?_cons_of_neg]
        · exact ih hmem
        · simp [hal]

theorem insertPhase_labels (e : Entity) (staged : List LabelInput) :
    ∀ db db' : ReplayDB, insertPhase db e staged = .ok db' → db'.labels = db.labels := by
  induction staged with
  | nil =>
    intro db db' h
    simp only [insertPhase, Except.ok.injEq] at h
    rw [← h]
  | cons li rest ih =>
    intro db db' h
    cases hl : li.label.data with
    | Number =>
      cases hp : parseI16 li.data with
      | none =>
        simp only [insertPhase, hl, hp] at h
        exact Except.noConfusion h
      | some n =>
        simp only [insertPhase, hl, hp] at h
        exact ih (db.insertComponent li.label e (.number n)) db' h
    | Text =>
      simp only [insertPhase, hl] at h
      exact ih (db.insertComponent li.label e (.text li.data)) db' h
    | Unit =>
      simp only [insertPhase, hl] at h
      exact ih (db.insertComponent li.label e .unit) db' h

/-- C3: round-trip — staging a value compatible with its label's kind,
committing, then opening a new session for the same entity yields a staged
field for that label with an identical textual value: the exact string for
`Text`, the exact integer (re-rendered in canonical base 10) for `Number`,
and presence with empty text for `Unit`. -/
theorem C3_round_trip (db : ReplayDB) (e : Entity) (staged : List LabelInput)
    (db' : ReplayDB) (l : Label) (txt : String)
    (hl : l ∈ db.labels)
    (hfind : staged.find? (fun li => li.label == l) = some { label := l, data := txt })
    (hnodup : (staged.map (fun li => li.label)).Nodup)
    (hok : saveChanges db e staged = .ok db') :
    match l.data with
    | .Text => stagedLookup (ReplayInfoEditor.new db' e).labels l = some txt
    | .Number => ∃ n, parseI16 txt = some n ∧
        stagedLookup (ReplayInfoEditor.new db' e).labels l = some (toString n)
    | .Unit => stagedLookup (ReplayInfoEditor.new db' e).labels l = some "" := by
  have hne : staged ≠ [] := by
    intro h
    rw [h] at hfind
    exact Option.noConfusion hfind
  have hok' : insertPhase (clearAll db e) e staged = .ok db' := by
    unfold saveChanges at hok
    rcases staged with _ | ⟨a, as⟩
    · exact absurd rfl hne
    · simpa using hok
  have hget : db'.getComponent l e =
      LabelInput.parsedValue { label := l, data := txt } := by
    rw [insertPhase_ok_get e staged (clearAll db e) db' hnodup hok' l, hfind]
  have hlabels : db'.labels = db.labels := by
    rw [insertPhase_labels e staged (clearAll db e) db' hok', clearAll_labels]
  have hl' : l ∈ db'.labels := by rw [hlabels]; exact hl
  have hlookup : stagedLookup (ReplayInfoEditor.new db' e).labels l =
      ((db'.getComponent l e).map (fun v =>
        ({ label := l
           data := match l.data with
             | .Number => toString v.asNumber
             | .Text => v.asText
             | .Unit => "" } : LabelInput))).map (fun li => li.data) := by
    unfold stagedLookup
    show ((seedLabels db' e db'.labels).find? _).map _ = _
    rw [seedLabels_find db' e l db'.labels hl']
  cases hkind : l.data with
  | Text =>
    simp only [LabelInput.parsedValue, hkind] at hget
    rw [hlookup, hget]
    simp [hkind, Value.asText]
  | Number =>
    simp only [LabelInput.parsedValue, hkind] at hget
    cases hp : parseI16 txt with
    | none =>
      have hmem : ({ label := l, data := txt } : LabelInput) ∈ staged :=
        List.mem_of_find?_eq_some hfind
      obtain ⟨v, hv⟩ := insertPhase_ok_parses e staged (clearAll db e) db' hok' _ hmem
      simp [LabelInput.parsedValue, hkind, hp] at hv
    | some n =>
      refine ⟨n, rfl, ?_⟩
      rw [hp] at hget
      rw [hlookup, hget]
      simp [hkind, Value.asNumber]
  | Unit =>
    simp only [LabelInput.parsedValue, hkind] at hget
    rw [hlookup, hget]
    simp [hkind]

/-- Witness for C3: after committing staged Name "Foo" and 800 Split "120",
a new session for the entity stages Name with exactly "Foo" and 800 Split
with exactly "120". -/
theorem C3_round_trip_witness :
    stagedLookup (ReplayInfoEditor.new committedAB 0).labels nameLabel = some "Foo" ∧
    stagedLookup (ReplayInfoEditor.new committedAB 0).labels splitLabel =
      some (toString (120 : Int)) := by
  constructor
  · exact C3_round_trip oldRowDB 0 stagedAB committedAB nameLabel "Foo"
      (by decide) (by decide) (by decide) rfl
  · obtain ⟨n, hn, hs⟩ := C3_round_trip oldRowDB 0 stagedAB committedAB splitLabel "120"
      (by decide) (by decide) (by decide) rfl
    have h120 : parseI16 "120" = some 120 := by decide
    rw [h120, Option.some.injEq] at hn
    rw [hn]
    exact hs

@[simp]
theorem focusInv_labelData (schema : List Label) (ent : Entity) (n : Nat)
    (staged : List LabelInput) :
    focusInv schema ⟨ent, .LabelData n, staged⟩ = decide (n < staged.length) := rfl

@[simp]
theorem focusInv_labelRemove (schema : List Label) (ent : Entity) (n : Nat)
    (staged : List LabelInput) :
    focusInv schema ⟨ent, .LabelRemove n, staged⟩ = decide (n < staged.length) := rfl

@[simp]
theorem focusInv_addable (schema : List Label) (ent : Entity) (n : Nat)
    (staged : List LabelInput) :
    focusInv schema ⟨ent, .AddableLabel n, staged⟩ =
      decide (n < number_addable_labels schema staged) := rfl

@[simp]
theorem focusInv_labelAdd (schema : List Label) (ent : Entity) (staged : List LabelInput) :
    focusInv schema ⟨ent, .LabelAdd, staged⟩ = true := rfl

@[simp]
theorem focusInv_saveChanges (schema : List Label) (ent : Entity) (staged : List LabelInput) :
    focusInv schema ⟨ent, .SaveChanges, staged⟩ = true := rfl

theorem next_focus_inv (schema : List Label) (ent : Entity) (foc : ReplayInfoEditorFocus)
    (staged : List LabelInput) (hinv : focusInv schema ⟨ent, foc, staged⟩ = true) :
    focusInv schema
      ⟨ent, foc.next_focus staged.length (number_addable_labels schema staged) false, staged⟩
      = true := by
  cases foc with
  | LabelData n =>
    simp only [focusInv_labelData, decide_eq_true_eq] at hinv
    simp only [ReplayInfoEditorFocus.next_focus, focusInv_labelRemove, decide_eq_true_eq]
    exact hinv
  | LabelRemove n =>
    simp only [focusInv_labelRemove, decide_eq_true_eq] at hinv
    simp only [ReplayInfoEditorFocus.next_focus]
    split
    · rfl
    · rename_i hne
      simp only [Bool.false_eq_true, if_false, focusInv_labelData, decide_eq_true_eq]
      omega
  | AddableLabel n =>
    simp only [focusInv_addable, decide_eq_true_eq] at hinv
    show focusInv schema
      ⟨ent, if number_addable_labels schema staged = n + 1 then .AddableLabel 0
            else .AddableLabel (n + 1), staged⟩ = true
    by_cases hc : number_addable_labels schema staged = n + 1
    · rw [if_pos hc]
      simp only [focusInv_addable, decide_eq_true_eq]
      omega
    · rw [if_neg hc]
      simp only [focusInv_addable, decide_eq_true_eq]
      omega
  | LabelAdd => rfl
  | SaveChanges => rfl

theorem editorStep_focusInv (schema : List Label) (st : ReplayInfoEditor) (k : EditorKey)
    (st' : ReplayInfoEditor) (hinv : focusInv schema st = true)
    (h : editorStep schema st k = some st') : focusInv schema st' = true := by
  rcases st with ⟨ent, foc, staged⟩
  cases k with
  | Esc =>
    cases foc with
    | AddableLabel n =>
      simp only [editorStep, Option.some.injEq] at h
      rw [← h]
      rfl
    | LabelData n => exact Option.noConfusion h
    | LabelRemove n => exact Option.noConfusion h
    | LabelAdd => exact Option.noConfusion h
    | SaveChanges => exact Option.noConfusion h
  | Up =>
    simp only [editorStep, Option.some.injEq] at h
    rw [← h]
    cases foc with
    | LabelData n =>
      simp only [focusInv_labelData, decide_eq_true_eq] at hinv
      simp only [ReplayInfoEditorFocus.prev_focus]
      split
      · simp only [focusInv_labelData, decide_eq_true_eq]
        omega
      · simp only [focusInv_labelRemove, decide_eq_true_eq]
        omega
    | LabelRemove n =>
      simp only [focusInv_labelRemove, decide_eq_true_eq] at hinv
      simp only [ReplayInfoEditorFocus.prev_focus, focusInv_labelData, decide_eq_true_eq]
      omega
    | AddableLabel n =>
      simp only [focusInv_addable, decide_eq_true_eq] at hinv
      simp only [ReplayInfoEditorFocus.prev_focus, focusInv_addable, decide_eq_true_eq]
      split <;> omega
    | LabelAdd =>
      simp only [ReplayInfoEditorFocus.prev_focus]
      split
      · rename_i hge
        simp only [focusInv_labelRemove, decide_eq_true_eq]
        omega
      · rfl
    | SaveChanges => rfl
  | Down =>
    simp only [editorStep, Option.some.injEq] at h
    rw [← h]
    exact next_focus_inv schema ent foc staged hinv
  | Tab =>
    simp only [editorStep, Option.some.injEq] at h
    rw [← h]
    exact next_focus_inv schema ent foc staged hinv
  | Enter =>
    cases foc with
    | LabelData n =>
      simp only [editorStep, Option.some.injEq] at h
      rw [← h]
      exact next_focus_inv schema ent (.LabelData n) staged hinv
    | LabelRemove n =>
      simp only [editorStep, Option.some.injEq] at h
      rw [← h]
      simp only [focusInv_labelRemove, decide_eq_true_eq] at hinv
      simp only [ReplayInfoEditorFocus.next_focus]
      split
      · rfl
      · rename_i hne
        simp only [if_pos, focusInv_labelData, decide_eq_true_eq]
        rw [List.length_eraseIdx_of_lt hinv]
        omega
    | AddableLabel n =>
      cases hget : (addable_labels schema staged)[n]? with
      | none =>
        simp only [editorStep, hget] at h
        exact Option.noConfusion h
      | some label =>
        simp only [editorStep, hget, Option.some.injEq] at h
        rw [← h]
        simp only [focusInv_labelData, decide_eq_true_eq, List.length_append,
          List.length_singleton]
        omega
    | LabelAdd =>
      simp only [editorStep] at h
      by_cases hc : number_addable_labels schema staged > 0
      · rw [if_pos hc] at h
        simp only [Option.some.injEq] at h
        rw [← h]
        simp only [focusInv_addable, decide_eq_true_eq]
        omega
      · rw [if_neg hc] at h
        simp only [Option.some.injEq] at h
        rw [← h]
        exact hinv
    | SaveChanges => exact Option.noConfusion h
  | Char c =>
    cases foc with
    | LabelData n =>
      cases hget : staged[n]? with
      | none =>
        simp only [editorStep, hget] at h
        exact Option.noConfusion h
      | some li =>
        simp only [editorStep, hget, Option.some.injEq] at h
        rw [← h]
        simp only [focusInv_labelData, decide_eq_true_eq, List.length_set] at hinv ⊢
        exact hinv
    | LabelRemove n =>
      simp only [editorStep, Option.some.injEq] at h
      rw [← h]
      exact hinv
    | AddableLabel n =>
      simp only [editorStep, Option.some.injEq] at h
      rw [← h]
      exact hinv
    | LabelAdd =>
      simp only [editorStep, Option.some.injEq] at h
      rw [← h]
      exact hinv
    | SaveChanges =>
      simp only [editorStep, Option.some.injEq] at h
      rw [← h]
      exact hinv

theorem new_focusInv (db : ReplayDB) (e : Entity) :
    focusInv db.labels (ReplayInfoEditor.new db e) = true := by
  rcases hs : seedLabels db e db.labels with _ | ⟨a, as⟩
  · simp [ReplayInfoEditor.new, hs, focusInv]
  · simp [ReplayInfoEditor.new, hs, focusInv]

theorem stepsFrom_preserve (schema : List Label) (P : ReplayInfoEditor → Prop)
    (hstep : ∀ st k st', P st → editorStep schema st k = some st' → P st') :
    ∀ (keys : List EditorKey) (st st' : ReplayInfoEditor),
      P st → stepsFrom schema st keys = some st' → P st' := by
  intro keys
  induction keys with
  | nil =>
    intro st st' hP h
    simp only [stepsFrom, Option.some.injEq] at h
    rw [← h]
    exact hP
  | cons k ks ih =>
    intro st st' hP h
    simp only [stepsFrom] at h
    cases he : editorStep schema st k with
    | none =>
      rw [he] at h
      exact Option.noConfusion h
    | some st1 =>
      rw [he] at h
      exact ih st1 st' (hstep st k st1 hP he) h

/-- C9: every editor state reachable by key events from a fresh session has
in-bounds indices: a `LabelData n` or `LabelRemove n` focus has `n` below
the staged-list length, and an `AddableLabel n` focus has `n` below the
addable count (so the count is at least 1); these bounds are exactly what
keeps the staged-buffer indexing on text input, the nth-addable lookup on
confirm, and the count-minus-one step backward from `AddableLabel 0` in
range. -/
theorem C9_reachable_index_safety (db : ReplayDB) (e : Entity) (keys : List EditorKey)
    (st : ReplayInfoEditor)
    (h : stepsFrom db.labels (ReplayInfoEditor.new db e) keys = some st) :
    focusInv db.labels st = true :=
  stepsFrom_preserve db.labels (fun s => focusInv db.labels s = true)
    (fun s k s' hs hstep => editorStep_focusInv db.labels s k s' hs hstep)
    keys (ReplayInfoEditor.new db e) st (new_focusInv db e) h

/-- The editor state reached from a fresh session on `oldRowDB` entity 0
after pressing Down, Down, Enter (ending at focus `LabelRemove 1`). -/
def reachedState9 : ReplayInfoEditor :=
  match stepsFrom oldRowDB.labels (ReplayInfoEditor.new oldRowDB 0)
    [.Down, .Down, .Enter] with
  | some st => st
  | none => ReplayInfoEditor.new oldRowDB 0

/-- Witness for C9 on a concrete reachable state. -/
theorem C9_reachable_index_safety_witness :
    focusInv oldRowDB.labels reachedState9 = true :=
  C9_reachable_index_safety oldRowDB 0 [.Down, .Down, .Enter] reachedState9 rfl

theorem map_label_set (staged : List LabelInput) (n : Nat) (li : LabelInput) (d : String)
    (h : staged[n]? = some li) :
    (staged.set n { label := li.label, data := d }).map (fun x => x.label) =
      staged.map (fun x => x.label) := by
  induction staged generalizing n with
  | nil => simp at h
  | cons a as ih =>
    cases n with
    | zero =>
      simp only [List.getElem?_cons_zero, Option.some.injEq] at h
      rw [← h]
      simp [List.set]
    | succ m =>
      simp only [List.getElem?_cons_succ] at h
      simp [List.set, ih m h]

theorem seedLabels_sublist (db : ReplayDB) (e : Entity) :
    ∀ ls : List Label, List.Sublist ((seedLabels db e ls).map (fun li => li.label)) ls := by
  intro ls
  induction ls with
  | nil => simp [seedLabels]
  | cons a as ih =>
    cases hga : db.getComponent a e with
    | none =>
      simp only [seedLabels, List.filterMap_cons, hga, Option.map_none]
      exact List.Sublist.cons a ih
    | some v =>
      simp only [seedLabels, List.filterMap_cons, hga, Option.map_some', List.map_cons]
      exact List.Sublist.cons₂ a ih

theorem new_nodup (db : ReplayDB) (e : Entity) (hschema : db.labels.Nodup) :
    ((ReplayInfoEditor.new db e).labels.map (fun li => li.label)).Nodup :=
  List.Sublist.nodup (seedLabels_sublist db e db.labels) hschema

theorem editorStep_nodup (schema : List Label) (st : ReplayInfoEditor) (k : EditorKey)
    (st' : ReplayInfoEditor)
    (hnodup : (st.labels.map (fun li => li.label)).Nodup)
    (h : editorStep schema st k = some st') :
    (st'.labels.map (fun li => li.label)).Nodup := by
  rcases st with ⟨ent, foc, staged⟩
  cases k with
  | Esc =>
    cases foc with
    | AddableLabel n =>
      simp only [editorStep, Option.some.injEq] at h
      rw [← h]
      exact hnodup
    | LabelData n => exact Option.noConfusion h
    | LabelRemove n => exact Option.noConfusion h
    | LabelAdd => exact Option.noConfusion h
    | SaveChanges => exact Option.noConfusion h
  | Up =>
    simp only [editorStep, Option.some.injEq] at h
    rw [← h]
    exact hnodup
  | Down =>
    simp only [editorStep, Option.some.injEq] at h
    rw [← h]
    exact hnodup
  | Tab =>
    simp only [editorStep, Option.some.injEq] at h
    rw [← h]
    exact hnodup
  | Enter =>
    cases foc with
    | LabelData n =>
      simp only [editorStep, Option.some.injEq] at h
      rw [← h]
      exact hnodup
    | LabelRemove n =>
      simp only [editorStep, Option.some.injEq] at h
      rw [← h]
      exact List.Sublist.nodup (List.Sublist.map _ (List.eraseIdx_sublist staged n)) hnodup
    | AddableLabel n =>
      cases hget : (addable_labels schema staged)[n]? with
      | none =>
        simp only [editorStep, hget] at h
        exact Option.noConfusion h
      | some label =>
        simp only [editorStep, hget, Option.some.injEq] at h
        rw [← h]
        have hmem : label ∈ addable_labels schema staged := List.getElem?_mem hget
        have hp := (List.mem_filter.mp hmem).2
        rw [Bool.not_eq_true', List.any_eq_false] at hp
        have hnot : label ∉ staged.map (fun x => x.label) := by
          intro hmem2
          obtain ⟨li, hli, heq⟩ := List.mem_map.mp hmem2
          exact absurd (by simp [heq]) (hp li hli)
        rw [List.map_append]
        refine List.Nodup.append hnodup (by simp) ?_
        intro a ha hb
        simp only [List.map_cons, List.map_nil, List.mem_singleton] at hb
        rw [hb] at ha
        exact hnot ha
    | LabelAdd =>
      simp only [editorStep] at h
      by_cases hc : number_addable_labels schema staged > 0
      · rw [if_pos hc] at h
        simp only [Option.some.injEq] at h
        rw [← h]
        exact hnodup
      · rw [if_neg hc] at h
        simp only [Option.some.injEq] at h
        rw [← h]
        exact hnodup
    | SaveChanges => exact Option.noConfusion h
  | Char c =>
    cases foc with
    | LabelData n =>
      cases hget : staged[n]? with
      | none =>
        simp only [editorStep, hget] at h
        exact Option.noConfusion h
      | some li =>
        simp only [editorStep, hget, Option.some.injEq] at h
        rw [← h]
        show ((staged.set n { label := li.label, data := li.data.push c }).map
          (fun x => x.label)).Nodup
        rw [map_label_set staged n li (li.data.push c) hget]
        exact hnodup
    | LabelRemove n =>
      simp only [editorStep, Option.some.injEq] at h
      rw [← h]
      exact hnodup
    | AddableLabel n =>
      simp only [editorStep, Option.some.injEq] at h
      rw [← h]
      exact hnodup
    | LabelAdd =>
      simp only [editorStep, Option.some.injEq] at h
      rw [← h]
      exact hnodup
    | SaveChanges =>
      simp only [editorStep, Option.some.injEq] at h
      rw [← h]
      exact hnodup

theorem addable_labels_mem (schema : List Label) (staged : List LabelInput) (l : Label) :
    l ∈ addable_labels schema staged ↔
      (l ∈ schema ∧ ∀ li ∈ staged, li.label ≠ l) := by
  simp only [addable_labels, List.mem_filter, Bool.not_eq_true', List.any_eq_false,
    beq_iff_eq]

/-- C8: in every session state reachable by key events from a fresh session
(on a duplicate-free schema) the staged list carries each label at most
once; and `addable_labels` lists exactly the schema labels not already
staged, as a sublist of the schema (hence in schema order). -/
theorem C8_no_duplicate_staged_labels (db : ReplayDB) (e : Entity) (keys : List EditorKey)
    (st : ReplayInfoEditor) (hschema : db.labels.Nodup)
    (h : stepsFrom db.labels (ReplayInfoEditor.new db e) keys = some st) :
    (st.labels.map (fun li => li.label)).Nodup ∧
    List.Sublist (addable_labels db.labels st.labels) db.labels ∧
    ∀ l : Label, l ∈ addable_labels db.labels st.labels ↔
      (l ∈ db.labels ∧ ∀ li ∈ st.labels, li.label ≠ l) := by
  refine ⟨?_, List.filter_sublist db.labels, fun l => addable_labels_mem db.labels st.labels l⟩
  exact stepsFrom_preserve db.labels (fun s => (s.labels.map (fun li => li.label)).Nodup)
    (fun s k s' hs hstep => editorStep_nodup db.labels s k s' hs hstep)
    keys (ReplayInfoEditor.new db e) st (new_nodup db e hschema) h

/-- The editor state reached from a fresh session on `oldRowDB` entity 0
after removing the second staged field, opening the add menu, and
confirming the first addable label (staged becomes Name then 800 Split). -/
def reachedState8 : ReplayInfoEditor :=
  match stepsFrom oldRowDB.labels (ReplayInfoEditor.new oldRowDB 0)
    [.Down, .Down, .Enter, .Enter, .Enter, .Enter] with
  | some st => st
  | none => ReplayInfoEditor.new oldRowDB 0

/-- Witness for C8 on a concrete reachable state whose staged list shrank by
a removal and then grew by an addable label. -/
theorem C8_no_duplicate_staged_labels_witness :
    (reachedState8.labels.map (fun li => li.label)).Nodup :=
  (C8_no_duplicate_staged_labels oldRowDB 0 [.Down, .Down, .Enter, .Enter, .Enter, .Enter]
    reachedState8 (by decide) rfl).1

end DDReplayer
